import Mathlib

/-!
Verification of the QueryTerminal interactive SQLite client (`qt.py`).

The Python source is shallowly embedded below.  Scalar values coming back
from the database are modelled by `Option String`: `none` is SQL NULL and
`some s` is a non-NULL value rendered by Python's `str` as `s` (for string
values `str` is the identity).  External effects (the SQLite engine, the
rollback call, the terminal) are passed in as explicit parameters, and the
observable effects of a code path (printed lines, whether a rollback or a
projection query was attempted, whether the process exits) are returned as
data.
-/

namespace QTSpec

/-- Python's whitespace set used by `str.strip()`:
space, tab, newline, carriage return, vertical tab, form feed. -/
def isPySpace (c : Char) : Bool :=
  c = ' ' || c = '\t' || c = '\n' || c = '\r' || c = Char.ofNat 11 || c = Char.ofNat 12

/-- `str.strip()` on the underlying character list: drop leading whitespace,
then drop trailing whitespace. -/
def stripList (l : List Char) : List Char :=
  ((l.dropWhile isPySpace).reverse.dropWhile isPySpace).reverse

/-- Python `str.strip()` (as applied by `QT._read_line` to every input line). -/
def pyStrip (s : String) : String := ⟨stripList s.data⟩

/-- Python `sep.join(list)`. -/
def pyJoin (sep : String) : List String → String
  | [] => ""
  | [s] => s
  | s :: t :: r => s ++ sep ++ pyJoin sep (t :: r)

/-- Python `s.startswith(pre)`. -/
def pyStartsWith (pre s : String) : Bool := pre.data.isPrefixOf s.data

/-- Python `s.endsWith(suf)`. -/
def pyEndsWith (suf s : String) : Bool := suf.data.reverse.isPrefixOf s.data.reverse

/-- Accumulator-style worker for `pySplit`: `acc` holds the characters of the
word currently being read, in reverse. -/
def pySplitAux : List Char → List Char → List String
  | [], acc => if acc = [] then [] else [⟨acc.reverse⟩]
  | c :: cs, acc =>
    if isPySpace c then
      (if acc = [] then [] else [⟨acc.reverse⟩]) ++ pySplitAux cs []
    else pySplitAux cs (c :: acc)

/-- Python `line.split()`: split on whitespace runs, discarding empty pieces. -/
def pySplit (s : String) : List String := pySplitAux s.data []

/-- A database scalar as rendered by `_format_table`: `none` is NULL. -/
abbrev Cell := Option String

/-- Python `"" if v is None else str(v)` from `_format_table`. -/
def cellStr : Cell → String
  | none => ""
  | some s => s

/-- Python `s.ljust(w)`: pad on the right with spaces up to width `w`. -/
def ljust (s : String) (w : Nat) : String :=
  s ++ ⟨List.replicate (w - s.length) ' '⟩

/-- The width-update loop body of `_format_table`:
`for i, v in enumerate(r): widths[i] = max(widths[i], len(cellStr v))`.
(Rows coming from the cursor always have exactly one cell per header.) -/
def updWidths : List Nat → List Cell → List Nat
  | [], _ => []
  | ws, [] => ws
  | w :: ws, c :: cs => max w (cellStr c).length :: updWidths ws cs

/-- `fmt_row` from `_format_table`: each cell left-justified to its column
width, cells joined by `" | "`. -/
def fmtRow (widths : List Nat) (row : List Cell) : String :=
  pyJoin " | " (List.zipWith (fun c w => ljust (cellStr c) w) row widths)

/-- The separator rule of `_format_table`: dashes per column joined by `"-+-"`. -/
def sepRow (widths : List Nat) : String :=
  pyJoin "-+-" (widths.map (fun w => ⟨List.replicate w '-'⟩))

/-- `_format_table(headers, rows)` from `qt.py`. -/
def formatTable (headers : List String) (rows : List (List Cell)) : String :=
  if headers = [] then "(no columns)"
  else
    let widths := rows.foldl updWidths (headers.map String.length)
    pyJoin "\n" (fmtRow widths (headers.map some) :: sepRow widths :: rows.map (fmtRow widths))

/-- `_print_table(headers, rows)` from `qt.py`,
as the list of strings it passes to `print`. -/
def printTableOut (headers : List String) (rows : List (List Cell)) : List String :=
  if headers = [] then ["(no columns)"]
  else [formatTable headers rows] ++ (if rows = [] then ["(empty)"] else [])

/-- Number of newline characters in a string; a string prints as
`countNL s + 1` physical lines. -/
def countNL (s : String) : Nat := s.data.count '\n'

/-- The escaping the specification describes for the renderer: replace each
embedded newline by the two-character sequence backslash-n.
(Stated from the spec; `_format_table` in the source has no such step.) -/
def escNL (s : String) : String :=
  ⟨s.data.foldr (fun c acc => (if c = '\n' then ['\\', 'n'] else [c]) ++ acc) []⟩

/-- The renderer as the specification describes it: every cell (and header)
escaped by `escNL` before width computation and display. -/
def formatTableSpec (headers : List String) (rows : List (List Cell)) : String :=
  formatTable (headers.map escNL) (rows.map (fun r => r.map (fun c => (cellStr c |> escNL) |> some)))

/-! ### The meta-command registry (`QT.__init__`, `QT._handle_meta`) -/

/-- The handlers registered in `self._meta` in `QT.__init__`. -/
inductive MetaCmd where
  | help
  | exit
  | openDb
  | tables
  | schema
  | dump
deriving DecidableEq

/-- `self._meta.get(name)`: the dict built in `QT.__init__` maps exactly the
six command names `.help`, `.exit`, `.open`, `.tables`, `.schema`, `.dump`
to their handlers. -/
def metaLookup (name : String) : Option MetaCmd :=
  if name = ".help" then some .help
  else if name = ".exit" then some .exit
  else if name = ".open" then some .openDb
  else if name = ".tables" then some .tables
  else if name = ".schema" then some .schema
  else if name = ".dump" then some .dump
  else none

/-- `QT._handle_meta`: split the line on whitespace, look the first token up
in the registry; `true` means a handler was found (and run), `false` means the
caller prints "Unknown command. Type .help". -/
def handleMetaKnown (line : String) : Bool :=
  match pySplit line with
  | [] => false
  | tok :: _ => (metaLookup tok).isSome

/-! ### The session loop (`QT.run`) -/

/-- What one loop iteration of `QT.run` does with a line, besides updating
the pending buffer. -/
inductive StepAction where
  | skip
  | meta (line : String)
  | flush (sql : String)
  | accumulate
deriving DecidableEq

/-- The non-meta path of `QT.run`: append the line to the buffer; if it ends
with `";"`, join the buffer with newlines, clear it and hand the joined text
to `_exec_sql`. -/
def accumulateStep (buffer : List String) (line : String) : List String × StepAction :=
  let buffer' := buffer ++ [line]
  if pyEndsWith ";" line then ([], .flush (pyJoin "\n" buffer'))
  else (buffer', .accumulate)

/-- One iteration of the `while True` loop in `QT.run` on the raw line read
from the terminal (`_read_line` strips it):
empty lines are skipped; a line starting with `"."` while the buffer is empty
is dispatched as a meta-command; anything else goes through `accumulateStep`. -/
def runStep (buffer : List String) (raw : String) : List String × StepAction :=
  let line := pyStrip raw
  if line = "" then (buffer, .skip)
  else if buffer = [] ∧ pyStartsWith "." line then (buffer, .meta line)
  else accumulateStep buffer line

/-! ### The execution engine (`QT._exec_sql`) -/

/-- The outcome `conn.execute(sql)` hands back to `_exec_sql`:
either an error message, or `none` description ("no column metadata"), or
column names with the fetched rows. -/
abbrev DbResult := Except String (Option (List String × List (List Cell)))

/-- The observable effects of one `_exec_sql` call. -/
structure ExecEffect where
  output : List String
  rollbackAttempted : Bool
  exits : Bool
deriving DecidableEq

/-- The `except sqlite3.Error` handler around `self.rt.conn.rollback()`:
`pass` on failure, so no output either way. -/
def rollbackOut (rollbackResult : Except String Unit) : List String :=
  match rollbackResult with
  | .ok _ => []
  | .error _ => []

/-- `QT._exec_sql(sql)`, parametrised by the database's response and the
rollback call's outcome.  `elapsed` is the formatted milliseconds figure
printed when `self._timer` is on. -/
def execSql (timer : Bool) (dbResult : DbResult)
    (rollbackResult : Except String Unit) (elapsed : String) : ExecEffect :=
  let timerOut : List String := if timer then ["(Time: " ++ elapsed ++ " ms)"] else []
  match dbResult with
  | .ok none => ⟨["OK"] ++ timerOut, false, false⟩
  | .ok (some (headers, rows)) => ⟨printTableOut headers rows ++ timerOut, false, false⟩
  | .error e => ⟨rollbackOut rollbackResult ++ ["SQL error: " ++ e] ++ timerOut, true, false⟩

/-- One loop iteration of `QT.run` together with the execution effects of a
flushed statement: the new pending buffer and the `ExecEffect` when
`_exec_sql` ran. -/
def processLine (buffer : List String) (raw : String) (timer : Bool)
    (dbResult : DbResult) (rollbackResult : Except String Unit) (elapsed : String) :
    List String × Option ExecEffect :=
  match runStep buffer raw with
  | (buffer', .flush _) => (buffer', some (execSql timer dbResult rollbackResult elapsed))
  | (buffer', _) => (buffer', none)

/-! ### `.tables` (`QT._m_tables`) -/

/-- The observable effects of one `_m_tables` call. -/
structure TablesEffect where
  output : List String
  projectionQueried : Bool
deriving DecidableEq

/-- `QT._m_tables(args)`, parametrised by the catalog answers:
`tables` is what `_list_tables()` returns, `existsInCatalog` the result of the
`SELECT 1 FROM sqlite_master ... name = ?` probe, and `projHeaders`/`projRows`
what `SELECT * FROM <name>` would yield.  `projectionQueried` records whether
that `SELECT *` was executed. -/
def mTables (args : List String) (tables : List String) (existsInCatalog : Bool)
    (projHeaders : List String) (projRows : List (List Cell)) : TablesEffect :=
  match args with
  | [] => ⟨[if tables = [] then "(no tables)" else pyJoin " " tables], false⟩
  | name :: _ =>
    if existsInCatalog then ⟨printTableOut projHeaders projRows, true⟩
    else ⟨["(no such table or view: " ++ name ++ ")"], false⟩

/-! ### Completion ranking (`QT._complete`, final two lines) -/

/-- Ordered-set insertion: the building block of `sorted(set(candidates))`. -/
def insertSorted (a : String) : List String → List String
  | [] => [a]
  | b :: rest =>
    if a < b then a :: b :: rest
    else if a = b then b :: rest
    else b :: insertSorted a rest

/-- Python `sorted(set(l))`: the distinct elements of `l` in strictly
ascending lexicographic order. -/
def sortedSet (l : List String) : List String := l.foldr insertSorted []

/-- The candidate-ranking tail of `QT._complete`:
`candidates = sorted(set(candidates)); return candidates[state] if state < len(candidates) else None`. -/
def completeRank (candidates : List String) (state : Nat) : Option String :=
  let c := sortedSet candidates
  if h : state < c.length then some (c.get ⟨state, h⟩) else none

/-! ## Helper lemmas -/

theorem data_append (a b : String) : (a ++ b).data = a.data ++ b.data := rfl

theorem newline_mem_formatTable (headers : List String) (rows : List (List Cell))
    (h : headers ≠ []) : '\n' ∈ (formatTable headers rows).data := by
  unfold formatTable
  rw [if_neg h]
  show '\n' ∈ (pyJoin "\n" (_ :: _ :: _)).data
  rw [pyJoin, data_append, data_append]
  refine List.mem_append.2 (Or.inl (List.mem_append.2 (Or.inr ?_)))
  simp [String.data]

theorem formatTable_ne_OK (headers : List String) (rows : List (List Cell))
    (h : headers ≠ []) : formatTable headers rows ≠ "OK" := by
  intro heq
  have hm := newline_mem_formatTable headers rows h
  rw [heq] at hm
  simp [String.data] at hm

theorem OK_not_mem_printTableOut (headers : List String) (rows : List (List Cell)) :
    "OK" ∉ printTableOut headers rows := by
  intro hmem
  unfold printTableOut at hmem
  by_cases h : headers = []
  · rw [if_pos h] at hmem
    simp at hmem
  · rw [if_neg h] at hmem
    rcases List.mem_append.1 hmem with h1 | h2
    · exact formatTable_ne_OK headers rows h (List.mem_singleton.1 h1).symm
    · by_cases hr : rows = [] <;> simp [hr] at h2

/-! ## Claims -/

/-- C1 (counterexample): the meta-command registry of `QT.__init__` has no
`.import` entry, so an `.import` line is not a known meta-command. -/
theorem import_absent_from_registry :
    metaLookup ".import" = none ∧ handleMetaKnown ".import people.csv people" = false := by
  constructor
  · rfl
  · decide

/-- C1 (amended): the registry contains no `.import` command at all; its
commands are exactly `.help`, `.exit`, `.open`, `.tables`, `.schema` and
`.dump`, and an Idle-state `.import` line falls through `_handle_meta` as
unknown (so the session prints "Unknown command"). -/
theorem registry_has_exactly_six_commands :
    (∀ s : String, (metaLookup s).isSome ↔
        (s = ".help" ∨ s = ".exit" ∨ s = ".open" ∨ s = ".tables" ∨ s = ".schema" ∨ s = ".dump")) ∧
    handleMetaKnown ".import data.csv people" = false := by
  constructor
  · intro s
    unfold metaLookup
    split_ifs with h1 h2 h3 h4 h5 h6 <;> simp_all
  · decide

/-- C5: on a database-layer error, `_exec_sql` attempts a rollback, swallows
any rollback failure (the effect is identical whatever the rollback outcome),
prints exactly "SQL error: <message>" (absent timing), and never exits. -/
theorem exec_error_rollback_report_continue :
    ∀ (msg elapsed : String) (rollbackResult other : Except String Unit) (timer : Bool),
      (execSql timer (.error msg) rollbackResult elapsed).rollbackAttempted = true ∧
      (execSql timer (.error msg) rollbackResult elapsed).exits = false ∧
      (execSql false (.error msg) rollbackResult elapsed).output = ["SQL error: " ++ msg] ∧
      execSql timer (.error msg) rollbackResult elapsed =
        execSql timer (.error msg) other elapsed := by
  intro msg el rb other t
  refine ⟨rfl, rfl, ?_, ?_⟩
  · cases rb <;> rfl
  · cases rb <;> cases other <;> rfl

/-- C7: with timing off, a statement with no column metadata makes
`_exec_sql` output exactly the literal "OK"; a statement with column
metadata never outputs "OK". -/
theorem exec_no_columns_outputs_OK :
    ∀ (rollbackResult : Except String Unit) (elapsed : String),
      (execSql false (.ok none) rollbackResult elapsed).output = ["OK"] ∧
      ∀ (headers : List String) (rows : List (List Cell)),
        "OK" ∉ (execSql false (.ok (some (headers, rows))) rollbackResult elapsed).output := by
  intro rb el
  refine ⟨rfl, ?_⟩
  intro headers rows hmem
  have : (execSql false (.ok (some (headers, rows))) rb el).output = printTableOut headers rows := by
    simp [execSql]
  rw [this] at hmem
  exact OK_not_mem_printTableOut headers rows hmem

/-- C8: `.tables <name>` for a name absent from the catalog prints exactly
"(no such table or view: <name>)" and never runs the `SELECT *` projection. -/
theorem tables_missing_relation_no_query :
    ∀ (name : String) (rest tables projHeaders : List String) (projRows : List (List Cell)),
      mTables (name :: rest) tables false projHeaders projRows =
        ⟨["(no such table or view: " ++ name ++ ")"], false⟩ := by
  intro name rest tables ph pr
  rfl

/-- C9: a line that is empty after stripping is skipped in every state:
the buffer is unchanged and nothing is dispatched or flushed. -/
theorem empty_line_skipped (buffer : List String) (raw : String)
    (hempty : pyStrip raw = "") : runStep buffer raw = (buffer, .skip) := by
  simp [runStep, hempty]

/-- Witness for C9 at a Continuing-state buffer and a whitespace line. -/
theorem empty_line_skipped_witness :
    pyStrip " \t " = "" ∧ runStep ["SELECT 1"] " \t " = (["SELECT 1"], .skip) :=
  ⟨by decide, empty_line_skipped ["SELECT 1"] " \t " (by decide)⟩

/-- C4: a non-empty line starting with "." is dispatched as a meta-command
exactly when the buffer is empty; with a non-empty buffer it takes the same
append path as any other line and is never dispatched. -/
theorem dot_line_dispatch_iff_idle (buffer : List String) (raw : String)
    (hne : pyStrip raw ≠ "") (hdot : pyStartsWith "." (pyStrip raw) = true) :
    (buffer = [] → runStep buffer raw = (buffer, .meta (pyStrip raw))) ∧
    (buffer ≠ [] →
      runStep buffer raw = accumulateStep buffer (pyStrip raw) ∧
      ∀ s, (runStep buffer raw).2 ≠ .meta s) := by
  constructor
  · intro hb
    simp [runStep, hne, hb, hdot]
  · intro hb
    have hcond : ¬(buffer = [] ∧ pyStartsWith "." (pyStrip raw) = true) :=
      fun hc => hb hc.1
    constructor
    · simp [runStep, hne, hcond]
    · intro s
      simp only [runStep]
      rw [if_neg hne, if_neg hcond]
      unfold accumulateStep
      split <;> simp

/-- Witness for C4: `.schema` dispatches when Idle and accumulates when
Continuing. -/
theorem dot_line_dispatch_iff_idle_witness :
    runStep [] ".schema" = ([], .meta ".schema") ∧
    runStep ["SELECT 1"] ".schema" = (["SELECT 1", ".schema"], .accumulate) := by
  have hs : pyStrip ".schema" = ".schema" := by decide
  have h1 := (dot_line_dispatch_iff_idle [] ".schema" (by decide) (by decide)).1 rfl
  have h2 := ((dot_line_dispatch_iff_idle ["SELECT 1"] ".schema" (by decide) (by decide)).2
    (by simp)).1
  rw [hs] at h1 h2
  refine ⟨h1, ?_⟩
  rw [h2]
  decide

/-- C10: a flushed line leaves the buffer empty (Idle) whatever the
database's or the rollback's outcome: the buffer is cleared before
`_exec_sql` runs and `_exec_sql` cannot touch it. -/
theorem flush_clears_buffer_regardless (buffer : List String) (raw : String) (timer : Bool)
    (db1 db2 : DbResult) (rb1 rb2 : Except String Unit) (e1 e2 : String)
    (hne : pyStrip raw ≠ "")
    (hnometa : ¬(buffer = [] ∧ pyStartsWith "." (pyStrip raw) = true))
    (hsemi : pyEndsWith ";" (pyStrip raw) = true) :
    (processLine buffer raw timer db1 rb1 e1).1 = [] ∧
    (processLine buffer raw timer db1 rb1 e1).1 = (processLine buffer raw timer db2 rb2 e2).1 := by
  have hstep : runStep buffer raw = ([], .flush (pyJoin "\n" (buffer ++ [pyStrip raw]))) := by
    simp [runStep, hne, hnometa, accumulateStep, hsemi]
  constructor <;> simp [processLine, hstep]

/-- Witness for C10: a failing statement still leaves the buffer empty, and
the buffer agrees with the one after a successful statement. -/
theorem flush_clears_buffer_regardless_witness :
    (processLine ["SELECT 1"] "WHERE x;" false (.error "no such column: x")
        (.ok ()) "0.10").1 = [] :=
  (flush_clears_buffer_regardless ["SELECT 1"] "WHERE x;" false
    (.error "no such column: x") (.ok none) (.ok ()) (.ok ()) "0.10" "0.10"
    (by decide) (by decide) (by decide)).1

theorem mem_insertSorted (a x : String) (l : List String) :
    x ∈ insertSorted a l ↔ x = a ∨ x ∈ l := by
  induction l with
  | nil => simp [insertSorted]
  | cons b rest ih =>
    unfold insertSorted
    by_cases h1 : a < b
    · rw [if_pos h1]
      simp [List.mem_cons]
    · rw [if_neg h1]
      by_cases h2 : a = b
      · rw [if_pos h2]
        subst h2
        simp only [List.mem_cons]
        tauto
      · rw [if_neg h2]
        simp only [List.mem_cons, ih]
        tauto

theorem sorted_insertSorted (a : String) (l : List String)
    (h : l.Sorted (· < ·)) : (insertSorted a l).Sorted (· < ·) := by
  induction l with
  | nil => simp [insertSorted]
  | cons b rest ih =>
    rw [List.sorted_cons] at h
    unfold insertSorted
    by_cases h1 : a < b
    · rw [if_pos h1, List.sorted_cons]
      refine ⟨?_, List.sorted_cons.2 h⟩
      intro x hx
      rcases List.mem_cons.1 hx with rfl | hx'
      · exact h1
      · exact lt_trans h1 (h.1 x hx')
    · rw [if_neg h1]
      by_cases h2 : a = b
      · rw [if_pos h2]
        exact List.sorted_cons.2 h
      · rw [if_neg h2]
        have hba : b < a := lt_of_le_of_ne (not_lt.mp h1) (fun he => h2 he.symm)
        rw [List.sorted_cons]
        refine ⟨?_, ih h.2⟩
        intro x hx
        rcases (mem_insertSorted a x rest).1 hx with rfl | hx'
        · exact hba
        · exact h.1 x hx'

theorem sorted_sortedSet (l : List String) : (sortedSet l).Sorted (· < ·) := by
  induction l with
  | nil => simp [sortedSet]
  | cons a rest ih => exact sorted_insertSorted a _ ih

theorem mem_sortedSet (l : List String) (x : String) : x ∈ sortedSet l ↔ x ∈ l := by
  induction l with
  | nil => simp [sortedSet]
  | cons a rest ih =>
    show x ∈ insertSorted a (sortedSet rest) ↔ _
    rw [mem_insertSorted]
    simp [ih]

/-- C6: the completion ranking of `_complete` — the candidate list is
deduplicated and sorted strictly ascending while keeping exactly the original
candidates, the request returns the candidate at `request_index` in that
order, and any index past the end deterministically yields none. -/
theorem completion_ranking (candidates : List String) (requestIndex : Nat) :
    (sortedSet candidates).Sorted (· < ·) ∧
    (sortedSet candidates).Nodup ∧
    (∀ x, x ∈ sortedSet candidates ↔ x ∈ candidates) ∧
    completeRank candidates requestIndex = (sortedSet candidates).get? requestIndex ∧
    ((sortedSet candidates).length ≤ requestIndex →
        completeRank candidates requestIndex = none) := by
  refine ⟨sorted_sortedSet candidates, (sorted_sortedSet candidates).nodup,
    mem_sortedSet candidates, ?_, ?_⟩
  · show (if h : _ < (sortedSet candidates).length then
        some ((sortedSet candidates).get ⟨requestIndex, h⟩) else none) = _
    split
    · rename_i h
      exact (List.get?_eq_get h).symm
    · rename_i h
      exact (List.get?_eq_none.2 (Nat.le_of_not_lt h)).symm
  · intro h
    simp [completeRank]
    omega

/-- Witness for C6 on a duplicated, unsorted candidate list. -/
theorem completion_ranking_witness :
    completeRank ["users", "items", "users"] 1 = some "users" ∧
    completeRank ["users", "items", "users"] 2 = none := by
  have hiu : ("items" : String) < "users" := String.lt_iff_toList_lt.mpr (by decide)
  have hui : ¬ (("users" : String) < "items") := fun hcon => by
    have h' := String.lt_iff_toList_lt.mp hcon
    revert h'
    decide
  have hs : sortedSet ["users", "items", "users"] = ["items", "users"] := by
    simp [sortedSet, insertSorted, hiu, hui, lt_irrefl]
  constructor
  · have h := (completion_ranking ["users", "items", "users"] 1).2.2.2.1
    rw [h, hs]
    rfl
  · exact (completion_ranking ["users", "items", "users"] 2).2.2.2.2 (by rw [hs]; decide)

theorem data_eq_nil_iff (s : String) : s.data = [] ↔ s = "" := by
  cases s with
  | mk d =>
    constructor
    · intro h
      rw [show d = ([] : List Char) from h]
    · intro h
      rw [h]

theorem dropWhile_length_eq {p : Char → Bool} :
    ∀ l : List Char, (l.dropWhile p).length = l.length → l.dropWhile p = l := by
  intro l
  induction l with
  | nil => simp
  | cons c t ih =>
    rw [List.dropWhile_cons]
    by_cases hp : p c
    · rw [if_pos hp]
      intro h
      have hle := (List.dropWhile_suffix (l := t) p).sublist.length_le
      simp at h
      omega
    · rw [if_neg hp]
      intro _
      rfl

theorem head?_dropWhile {p : Char → Bool} :
    ∀ l : List Char, ∀ c ∈ (l.dropWhile p).head?, p c = false := by
  intro l
  induction l with
  | nil => simp
  | cons c t ih =>
    rw [List.dropWhile_cons]
    by_cases hp : p c
    · rw [if_pos hp]
      exact ih
    · rw [if_neg hp]
      intro d hd
      have hdc : c = d := by simpa using hd
      subst hdc
      simpa using hp

theorem getLast?_dropWhile {p : Char → Bool} :
    ∀ l : List Char, l.dropWhile p ≠ [] → (l.dropWhile p).getLast? = l.getLast? := by
  intro l
  induction l with
  | nil => simp
  | cons c t ih =>
    rw [List.dropWhile_cons]
    by_cases hp : p c
    · rw [if_pos hp]
      intro hne
      have ht : t ≠ [] := by
        intro h
        rw [h] at hne
        exact hne rfl
      rw [ih hne]
      cases t with
      | nil => exact absurd rfl ht
      | cons x t' => rw [List.getLast?_cons_cons]
    · rw [if_neg hp]
      intro _
      rfl

theorem dropWhile_eq_self_iff_head? {p : Char → Bool} (l : List Char) :
    l.dropWhile p = l ↔ ∀ c ∈ l.head?, p c = false := by
  cases l with
  | nil => simp
  | cons c t =>
    rw [List.dropWhile_cons]
    by_cases hp : p c
    · rw [if_pos hp]
      constructor
      · intro h
        exfalso
        have hlen := congrArg List.length h
        have hle := (List.dropWhile_suffix (l := t) p).sublist.length_le
        simp at hlen
        omega
      · intro h
        exact absurd (h c rfl) (by simp [hp])
    · rw [if_neg hp]
      constructor
      · intro _ d hd
        have hdc : c = d := by simpa using hd
        subst hdc
        simpa using hp
      · intro _
        rfl

theorem strip_eq_self_of_edges (l : List Char)
    (hh : ∀ c ∈ l.head?, isPySpace c = false)
    (hl : ∀ c ∈ l.getLast?, isPySpace c = false) : stripList l = l := by
  unfold stripList
  rw [(dropWhile_eq_self_iff_head? l).2 hh]
  rw [(dropWhile_eq_self_iff_head? l.reverse).2 (by rw [List.head?_reverse]; exact hl)]
  exact List.reverse_reverse l

theorem edges_of_strip_eq_self (l : List Char) (h : stripList l = l) :
    (∀ c ∈ l.head?, isPySpace c = false) ∧ (∀ c ∈ l.getLast?, isPySpace c = false) := by
  have hlen : (((l.dropWhile isPySpace).reverse.dropWhile isPySpace).reverse).length = l.length :=
    congrArg List.length h
  have hle1 : ((l.dropWhile isPySpace).reverse.dropWhile isPySpace).length ≤
      (l.dropWhile isPySpace).length := by
    have := (List.dropWhile_suffix (l := (l.dropWhile isPySpace).reverse) isPySpace).sublist.length_le
    simpa using this
  have hle2 : (l.dropWhile isPySpace).length ≤ l.length :=
    (List.dropWhile_suffix isPySpace).sublist.length_le
  have hd1 : l.dropWhile isPySpace = l := by
    apply dropWhile_length_eq
    simp at hlen
    omega
  have h2 : (l.reverse.dropWhile isPySpace).reverse = l := by
    have := h
    unfold stripList at this
    rwa [hd1] at this
  have h3 : l.reverse.dropWhile isPySpace = l.reverse := by
    have := congrArg List.reverse h2
    simpa using this
  refine ⟨(dropWhile_eq_self_iff_head? l).1 hd1, ?_⟩
  have := (dropWhile_eq_self_iff_head? l.reverse).1 h3
  rwa [List.head?_reverse] at this

theorem stripList_edges (l : List Char) :
    (∀ c ∈ (stripList l).head?, isPySpace c = false) ∧
    (∀ c ∈ (stripList l).getLast?, isPySpace c = false) := by
  unfold stripList
  constructor
  · rw [List.head?_reverse]
    by_cases hne : (l.dropWhile isPySpace).reverse.dropWhile isPySpace = []
    · simp [hne]
    · rw [getLast?_dropWhile _ hne, List.getLast?_reverse]
      exact head?_dropWhile l
  · rw [List.getLast?_reverse]
    exact head?_dropWhile (l.dropWhile isPySpace).reverse

theorem pyStrip_idem (s : String) : pyStrip (pyStrip s) = pyStrip s := by
  show (⟨stripList (stripList s.data)⟩ : String) = ⟨stripList s.data⟩
  rw [strip_eq_self_of_edges (stripList s.data) (stripList_edges s.data).1
    (stripList_edges s.data).2]

theorem head?_pyJoinNL (s : String) (rest : List String) (hs : s.data ≠ []) :
    (pyJoin "\n" (s :: rest)).data.head? = s.data.head? := by
  cases rest with
  | nil => rfl
  | cons t r =>
    show ((s ++ "\n") ++ pyJoin "\n" (t :: r)).data.head? = _
    cases hd : s.data with
    | nil => exact absurd hd hs
    | cons c cs => simp [data_append, hd]

theorem getLast?_pyJoinNL :
    ∀ (ls : List String) (s : String), s.data ≠ [] →
      (pyJoin "\n" (ls ++ [s])).data.getLast? = s.data.getLast? := by
  intro ls
  induction ls with
  | nil => intro s _; rfl
  | cons t ls' ih =>
    intro s hs
    have ih' := ih s hs
    obtain ⟨x, r, hxr⟩ : ∃ x r, ls' ++ [s] = x :: r := by
      cases ls' <;> exact ⟨_, _, rfl⟩
    show (pyJoin "\n" (t :: (ls' ++ [s]))).data.getLast? = _
    rw [hxr] at ih' ⊢
    show ((t ++ "\n") ++ pyJoin "\n" (x :: r)).data.getLast? = _
    rw [data_append, List.getLast?_append, ih']
    obtain ⟨y, hy⟩ : ∃ y, s.data.getLast? = some y :=
      Option.isSome_iff_exists.1 (List.getLast?_isSome.2 hs)
    rw [hy]
    rfl

theorem joinNL_trimmed (ls : List String) (hne : ls ≠ [])
    (hinv : ∀ l ∈ ls, l.data ≠ [] ∧ stripList l.data = l.data) :
    pyStrip (pyJoin "\n" ls) = pyJoin "\n" ls := by
  cases ls with
  | nil => exact absurd rfl hne
  | cons s rest =>
    have hs := hinv s (List.mem_cons_self s rest)
    have hcons : (s :: rest) ≠ [] := by simp
    obtain ⟨z, initL, hzmem, hsplit⟩ :
        ∃ z initL, z ∈ s :: rest ∧ s :: rest = initL ++ [z] :=
      ⟨(s :: rest).getLast hcons, (s :: rest).dropLast, List.getLast_mem hcons,
        (List.dropLast_append_getLast hcons).symm⟩
    have hz := hinv z hzmem
    have hzlast : (pyJoin "\n" (s :: rest)).data.getLast? = z.data.getLast? := by
      rw [hsplit]
      exact getLast?_pyJoinNL initL z hz.1
    show (⟨stripList (pyJoin "\n" (s :: rest)).data⟩ : String) = _
    rw [strip_eq_self_of_edges]
    · rw [head?_pyJoinNL s rest hs.1]
      exact (edges_of_strip_eq_self s.data hs.2).1
    · rw [hzlast]
      exact (edges_of_strip_eq_self z.data hz.2).2

/-- C3: in Continuing (or Idle non-meta) position, a stripped line ending in
";" makes the loop join the whole buffer (with the line appended) using
newline separators, hand the joined text — which is its own trim — to
`_exec_sql` as one statement, and clear the buffer. -/
theorem flush_joins_trimmed_statement_and_clears (buffer : List String) (raw : String)
    (hinv : ∀ l ∈ buffer, l ≠ "" ∧ pyStrip l = l)
    (hne : pyStrip raw ≠ "")
    (hnometa : ¬(buffer = [] ∧ pyStartsWith "." (pyStrip raw) = true))
    (hsemi : pyEndsWith ";" (pyStrip raw) = true) :
    runStep buffer raw = ([], .flush (pyJoin "\n" (buffer ++ [pyStrip raw]))) ∧
    pyStrip (pyJoin "\n" (buffer ++ [pyStrip raw])) = pyJoin "\n" (buffer ++ [pyStrip raw]) := by
  constructor
  · simp [runStep, hne, hnometa, accumulateStep, hsemi]
  · apply joinNL_trimmed
    · simp
    · intro l hl
      rcases List.mem_append.1 hl with hbuf | hnew
      · have h := hinv l hbuf
        refine ⟨fun hd => h.1 ((data_eq_nil_iff l).1 hd), ?_⟩
        exact congrArg String.data h.2
      · rw [List.mem_singleton.1 hnew]
        refine ⟨fun hd => hne ((data_eq_nil_iff _).1 hd), ?_⟩
        exact congrArg String.data (pyStrip_idem raw)

/-- Witness for C3: a two-line statement is flushed as one trimmed string. -/
theorem flush_joins_trimmed_statement_and_clears_witness :
    runStep ["SELECT *"] " FROM t;" = ([], .flush "SELECT *\nFROM t;") ∧
    pyStrip "SELECT *\nFROM t;" = "SELECT *\nFROM t;" := by
  have h := flush_joins_trimmed_statement_and_clears ["SELECT *"] " FROM t;"
    (by decide) (by decide) (by decide) (by decide)
  have hj : pyJoin "\n" (["SELECT *"] ++ [pyStrip " FROM t;"]) = "SELECT *\nFROM t;" := by
    decide
  refine ⟨?_, ?_⟩
  · rw [h.1, hj]
  · have h2 := h.2
    rw [hj] at h2
    exact h2

theorem countNL_append (a b : String) : countNL (a ++ b) = countNL a + countNL b := by
  unfold countNL
  rw [data_append, List.count_append]

theorem countNL_replicate (c : Char) (n : Nat) (hc : ¬ c = '\n') :
    countNL ⟨List.replicate n c⟩ = 0 := by
  show (List.replicate n c).count '\n' = 0
  rw [List.count_replicate]
  rw [show (c == '\n') = false from by simpa using hc]
  rfl

theorem countNL_ljust (s : String) (w : Nat) : countNL (ljust s w) = countNL s := by
  unfold ljust
  rw [countNL_append, countNL_replicate ' ' _ (by decide)]
  omega

theorem countNL_pyJoin_sep0 (sep : String) (hsep : countNL sep = 0) :
    ∀ l : List String, countNL (pyJoin sep l) = (l.map countNL).sum := by
  intro l
  induction l with
  | nil => rfl
  | cons s t ih =>
    cases t with
    | nil => simp [pyJoin]
    | cons u r =>
      show countNL ((s ++ sep) ++ pyJoin sep (u :: r)) = _
      rw [countNL_append, countNL_append, hsep, ih]
      simp only [List.map_cons, List.sum_cons]
      omega

theorem countNL_pyJoin_nl :
    ∀ l : List String, countNL (pyJoin "\n" l) = (l.length - 1) + (l.map countNL).sum := by
  intro l
  induction l with
  | nil => rfl
  | cons s t ih =>
    cases t with
    | nil => simp [pyJoin]
    | cons u r =>
      show countNL ((s ++ "\n") ++ pyJoin "\n" (u :: r)) = _
      rw [countNL_append, countNL_append, ih]
      rw [show countNL "\n" = 1 from rfl]
      simp only [List.map_cons, List.sum_cons, List.length_cons]
      omega

theorem zip_ljust_countNL :
    ∀ (row : List Cell) (ws : List Nat), row.length ≤ ws.length →
      ((List.zipWith (fun c w => ljust (cellStr c) w) row ws).map countNL).sum
        = (row.map (fun c => countNL (cellStr c))).sum := by
  intro row
  induction row with
  | nil => intro ws _; simp
  | cons c cs ih =>
    intro ws hlen
    cases ws with
    | nil => simp at hlen
    | cons w ws' =>
      simp only [List.zipWith_cons_cons, List.map_cons, List.sum_cons]
      rw [countNL_ljust, ih ws' (by simpa using hlen)]

theorem countNL_fmtRow (widths : List Nat) (row : List Cell)
    (hlen : row.length ≤ widths.length) :
    countNL (fmtRow widths row) = (row.map (fun c => countNL (cellStr c))).sum := by
  unfold fmtRow
  rw [countNL_pyJoin_sep0 " | " rfl]
  exact zip_ljust_countNL row widths hlen

theorem countNL_sepRow (widths : List Nat) : countNL (sepRow widths) = 0 := by
  unfold sepRow
  rw [countNL_pyJoin_sep0 "-+-" rfl]
  apply List.sum_eq_zero
  intro x hx
  rw [List.map_map] at hx
  obtain ⟨w, _, hw⟩ := List.mem_map.1 hx
  rw [← hw]
  exact countNL_replicate '-' w (by decide)

theorem updWidths_length : ∀ (ws : List Nat) (r : List Cell), (updWidths ws r).length = ws.length := by
  intro ws
  induction ws with
  | nil => intro r; cases r <;> rfl
  | cons w ws' ih =>
    intro r
    cases r with
    | nil => rfl
    | cons c cs => simp [updWidths, ih]

theorem foldl_updWidths_length (rows : List (List Cell)) (init : List Nat) :
    (rows.foldl updWidths init).length = init.length := by
  induction rows generalizing init with
  | nil => rfl
  | cons r rs ih => rw [List.foldl_cons, ih, updWidths_length]

/-- C2 counterexample: on header `a` and the single cell `"x\ny"`,
`_format_table` renders the raw newline (the data row spans two physical
lines; three newlines in total), unlike the escaping renderer the
specification describes. -/
theorem renderer_does_not_escape_newlines :
    formatTable ["a"] [[some "x\ny"]] ≠ formatTableSpec ["a"] [[some "x\ny"]] ∧
    countNL (formatTable ["a"] [[some "x\ny"]]) = 3 ∧
    countNL (formatTableSpec ["a"] [[some "x\ny"]]) = 2 := by
  refine ⟨by decide, by decide, by decide⟩

/-- C2 (amended): `_format_table` performs no newline escaping — cell values
(and headers) are rendered verbatim, so the output holds one newline per
embedded newline on top of the `1 + number-of-rows` line separators; in
particular a row with an embedded newline spans more than one physical line,
and rows occupy exactly one line only when their cells are newline-free. -/
theorem formatTable_newlines_verbatim (headers : List String) (rows : List (List Cell))
    (hne : headers ≠ []) (hlen : ∀ r ∈ rows, r.length = headers.length) :
    countNL (formatTable headers rows) =
      1 + rows.length + (headers.map countNL).sum +
        (rows.map (fun r => (r.map (fun c => countNL (cellStr c))).sum)).sum := by
  unfold formatTable
  rw [if_neg hne]
  show countNL (pyJoin "\n"
    (fmtRow (rows.foldl updWidths (headers.map String.length)) (headers.map some) ::
      sepRow (rows.foldl updWidths (headers.map String.length)) ::
      rows.map (fmtRow (rows.foldl updWidths (headers.map String.length))))) = _
  have hwlen : (rows.foldl updWidths (headers.map String.length)).length = headers.length := by
    rw [foldl_updWidths_length]
    exact List.length_map headers String.length
  rw [countNL_pyJoin_nl]
  simp only [List.map_cons, List.sum_cons, List.length_cons]
  rw [countNL_sepRow]
  rw [countNL_fmtRow _ (headers.map some) (by simp [hwlen])]
  have hhead : ((headers.map some).map (fun c => countNL (cellStr c))).sum
      = (headers.map countNL).sum := by
    rw [List.map_map]
    rfl
  rw [hhead]
  have hrows : ((rows.map (fmtRow (rows.foldl updWidths (headers.map String.length)))).map
        countNL).sum
      = (rows.map (fun r => (r.map (fun c => countNL (cellStr c))).sum)).sum := by
    rw [List.map_map]
    apply congrArg
    apply List.map_congr_left
    intro r hr
    exact countNL_fmtRow _ r (by rw [hlen r hr, ← hwlen])
  rw [hrows]
  simp only [List.length_map]
  omega

/-- Witness for C2 (amended) on a two-column table with two embedded
newlines. -/
theorem formatTable_newlines_verbatim_witness :
    countNL (formatTable ["a", "b"] [[some "x\ny", none], [some "p", some "q\nz"]]) = 5 := by
  have h := formatTable_newlines_verbatim ["a", "b"]
    [[some "x\ny", none], [some "p", some "q\nz"]] (by decide) (by decide)
  rw [h]
  decide

end QTSpec
